import Mathlib

/-!
Verification of the attachment-upload pipeline in `bot.js` (discord-gyazo-bot).

The development shallowly embeds the program: the Gyazo response record, the
URL resolver `getDirectImageUrl`, the cleanup helper `cleanupFile`, and the
`messageCreate` handler are translated into executable Lean definitions, with
the external world (download outcome, upload outcome, clock, filesystem)
passed in explicitly.  Theorems about these definitions settle the claims of
the specification.
-/

/-- A parsed JSON response from the Gyazo upload API: the opaque identifier
and the reference URL (`bot.js` reads fields `image_id` and `url`). -/
structure GyazoResponse where
  image_id : String
  url : String
  deriving DecidableEq, Repr

/-- JavaScript `String.prototype.split` with a one-character separator,
modelled on lists of characters: `"".split(c)` is `[""]`, and each occurrence
of the separator starts a new (possibly empty) segment.  This embeds the
`url.split('.')` call on line 67 of `bot.js`. -/
def jsSplitChar (c : Char) : List Char → List (List Char)
  | [] => [[]]
  | x :: xs =>
    if x = c then
      [] :: jsSplitChar c xs
    else
      match jsSplitChar c xs with
      | [] => [[x]]
      | y :: ys => (x :: y) :: ys

/-- The `.pop()` of the split result (the split is never empty, so `pop`
returns its last element). -/
def jsLast (c : Char) (l : List Char) : List Char :=
  (jsSplitChar c l).getLastD []

/-- `s.split(c).pop()` at the string level. -/
def jsSplitPop (c : Char) (s : String) : String :=
  String.mk (jsLast c s.toList)

/-- Embedding of `getDirectImageUrl` (`bot.js` lines 61-70):
`extension = url.split('.').pop() || 'jpg'` — the JavaScript `||` takes the
right operand exactly when the left one is the empty string — followed by
the template literal `https://i.gyazo.com/${imageId}.${extension}`. -/
def getDirectImageUrl (r : GyazoResponse) : String :=
  let ext0 := jsSplitPop '.' r.url
  let extension := if ext0 = "" then "jpg" else ext0
  "https://i.gyazo.com/" ++ r.image_id ++ "." ++ extension

/-- Transcription of the specification's words for the extension heuristic
(§4.3): "take the substring after the last '.' in the reference URL field".
Kept separate from the source-derived `jsSplitPop` so the two can be
compared. -/
def specSuffixAfterLastDot (s : String) : String :=
  String.mk ((s.toList.reverse.takeWhile (fun a => a != '.')).reverse)

/-- An attachment of an inbound message: a file name and a source URL. -/
structure Attachment where
  name : String
  url : String
  deriving DecidableEq, Repr

/-- The parts of an inbound message the handler reads: the author's bot flag,
the channel identifier, and the attachment list (`bot.js` lines 92-101). -/
structure Message where
  authorBot : Bool
  channelId : String
  attachments : List Attachment
  deriving DecidableEq, Repr

/-- The configuration field the handler reads: the optional channel filter
(`config.channelId`, empty string meaning "all channels"). -/
structure Config where
  channelId : String
  deriving DecidableEq, Repr

/-- The local filesystem as the pipeline sees it: the set of existing staging
files, plus the set of paths whose deletion the filesystem refuses (used to
model `fs.unlinkSync` raising, e.g. a permission error). -/
structure FS where
  files : List String
  unlinkFails : List String
  deriving DecidableEq, Repr

/-- `fs.existsSync(filepath)` on the modelled filesystem. -/
def existsSync (fs : FS) (p : String) : Bool :=
  fs.files.contains p

/-- `fs.unlinkSync(filepath)`: removes the file, or raises when the
filesystem refuses the deletion. -/
def unlinkSync (fs : FS) (p : String) : Except Unit FS :=
  if fs.unlinkFails.contains p then Except.error ()
  else Except.ok { fs with files := fs.files.filter (fun q => q != p) }

/-- The body of `cleanupFile` before its `catch` (`bot.js` lines 74-77):
`if (fs.existsSync(filepath)) fs.unlinkSync(filepath)`. -/
def cleanupFileBody (fs : FS) (p : String) : Except Unit FS :=
  if existsSync fs p then unlinkSync fs p else Except.ok fs

/-- Embedding of `cleanupFile` (`bot.js` lines 73-81): the `catch` logs the
deletion error and swallows it, leaving the filesystem as it was. -/
def cleanupFile (fs : FS) (p : String) : FS :=
  match cleanupFileBody fs p with
  | Except.ok fs' => fs'
  | Except.error _ => fs

/-- The outcomes of the external world for one attachment's run: whether the
download (`downloadImage`) succeeds, the upload outcome (`some` parsed
response, or `none` when `uploadToGyazo` throws), and the value of
`Date.now()` when the staging path is computed. -/
structure AttEnv where
  transferOk : Bool
  uploadResult : Option GyazoResponse
  time : Nat
  deriving DecidableEq, Repr

/-- The observable state of one handler invocation: the contents of the
replies posted so far (in posting order; edits mutate in place) and the
filesystem. -/
structure PState where
  msgs : List String
  fs : FS
  deriving DecidableEq, Repr

/-- The pending-status reply content (`bot.js` line 112). -/
def pendingText : String := "🔄 Uploading image to Gyazo..."

/-- The fixed failure-notice reply content (`bot.js` line 138). -/
def failText : String := "❌ Failed to upload image to Gyazo. Please try again later."

/-- The allow-list of image name suffixes (`bot.js` line 103). -/
def imageExtensions : List String :=
  [".jpg", ".jpeg", ".png", ".gif", ".webp", ".bmp"]

/-- The classification test (`bot.js` lines 104-106):
`imageExtensions.some(ext => attachment.name.toLowerCase().endsWith(ext))`,
modelled at the character level. -/
def isImage (a : Attachment) : Bool :=
  imageExtensions.any (fun ext => ext.toList.isSuffixOf (a.name.toList.map Char.toLower))

/-- The staging path (`bot.js` line 121):
`path.join('./temp', 'temp_' + Date.now() + '_' + attachment.name)`. -/
def tempFilename (time : Nat) (a : Attachment) : String :=
  "temp/temp_" ++ toString time ++ "_" ++ a.name

/-- One qualifying attachment's run (`bot.js` lines 110-139): post the pending
reply, download to the staging path, upload, edit the pending reply to the
code-block-wrapped direct URL and clean up; any failure is caught and answered
with a fresh failure reply — note the `catch` performs no cleanup. -/
def processAttachment (e : AttEnv) (a : Attachment) (st : PState) : PState :=
  let pendingIdx := st.msgs.length
  let st1 : PState := { st with msgs := st.msgs ++ [pendingText] }
  let fname := tempFilename e.time a
  if e.transferOk then
    let st2 : PState := { st1 with fs := { st1.fs with files := st1.fs.files ++ [fname] } }
    match e.uploadResult with
    | some resp =>
      let directUrl := getDirectImageUrl resp
      let st3 : PState := { st2 with
        msgs := st2.msgs.set pendingIdx ("```" ++ directUrl ++ "```") }
      { st3 with fs := cleanupFile st3.fs fname }
    | none =>
      { st2 with msgs := st2.msgs ++ [failText] }
  else
    { st1 with msgs := st1.msgs ++ [failText] }

/-- One iteration of the attachment loop: non-image attachments are skipped
(`continue`, `bot.js` line 108) with no action at all. -/
def handleOne (e : AttEnv) (a : Attachment) (st : PState) : PState :=
  if isImage a then processAttachment e a st else st

/-- The attachment loop (`bot.js` lines 101-140), sequential over the
attachment list; the environment is indexed by the attachment's position. -/
def processAttachments (env : Nat → AttEnv) : List Attachment → Nat → PState → PState
  | [], _, st => st
  | a :: rest, i, st => processAttachments env rest (i + 1) (handleOne (env i) a st)

/-- The `messageCreate` handler (`bot.js` lines 90-141): the three early
returns, then the attachment loop. -/
def handleMessage (cfg : Config) (env : Nat → AttEnv) (m : Message) (st : PState) : PState :=
  if m.authorBot then st
  else if cfg.channelId != "" && m.channelId != cfg.channelId then st
  else if m.attachments.isEmpty then st
  else processAttachments env m.attachments 0 st

/-- The number of replies one run of the loop posts for each attachment: none
for a skipped attachment, one (the pending reply, later edited in place) for a
successful image run, two (pending plus failure notice) for a failed one. -/
def repliesFor (env : Nat → AttEnv) : List Attachment → Nat → Nat
  | [], _ => 0
  | a :: rest, i =>
    (if isImage a then
      (if (env i).transferOk && ((env i).uploadResult).isSome then 1 else 2)
    else 0) + repliesFor env rest (i + 1)

/-- The split of a list is never the empty list of segments. -/
theorem jsSplitChar_ne_nil (c : Char) (l : List Char) : jsSplitChar c l ≠ [] := by
  induction l with
  | nil => simp [jsSplitChar]
  | cons x xs ih =>
    by_cases hx : x = c
    · simp [jsSplitChar, hx]
    · cases h : jsSplitChar c xs with
      | nil => exact absurd h ih
      | cons y ys => simp [jsSplitChar, hx, h]

/-- If the separator does not occur, the split is the singleton list. -/
theorem jsSplitChar_not_mem (c : Char) (l : List Char) (h : c ∉ l) :
    jsSplitChar c l = [l] := by
  induction l with
  | nil => simp [jsSplitChar]
  | cons x xs ih =>
    have hx : ¬x = c := fun e => h (e ▸ List.mem_cons_self x xs)
    have hxs : c ∉ xs := fun m => h (List.mem_cons_of_mem x m)
    simp [jsSplitChar, hx, ih hxs]

/-- Conversely, a singleton split means the separator does not occur. -/
theorem jsSplitChar_singleton (c : Char) (l : List Char) (y : List Char)
    (h : jsSplitChar c l = [y]) : c ∉ l := by
  induction l generalizing y with
  | nil => simp
  | cons x xs ih =>
    by_cases hx : x = c
    · rw [jsSplitChar, if_pos hx] at h
      injection h with h1 h2
      exact absurd h2 (jsSplitChar_ne_nil c xs)
    · cases hs : jsSplitChar c xs with
      | nil => exact absurd hs (jsSplitChar_ne_nil c xs)
      | cons z zs =>
        rw [jsSplitChar, if_neg hx, hs] at h
        cases h
        have : c ∉ xs := ih z hs
        simp [hx, this]
        intro e
        exact hx e.symm

/-- `takeWhile` over an appended failing element is `takeWhile` of the front. -/
theorem takeWhile_append_single_neg {α : Type} (p : α → Bool) (a : α)
    (hpa : p a = false) (m : List α) :
    (m ++ [a]).takeWhile p = m.takeWhile p := by
  induction m with
  | nil => simp [List.takeWhile_cons, hpa]
  | cons b bs ih =>
    by_cases hb : p b
    · simp [List.takeWhile_cons, hb, ih]
    · simp [List.takeWhile_cons, hb]

/-- `takeWhile` stops inside a front part containing a failing element. -/
theorem takeWhile_append_of_mem_neg {α : Type} (p : α → Bool) (c : α)
    (hpc : p c = false) (m l₂ : List α) (hm : c ∈ m) :
    (m ++ l₂).takeWhile p = m.takeWhile p := by
  induction m with
  | nil => cases hm
  | cons b bs ih =>
    by_cases hb : p b
    · have hbc : c ∈ bs := by
        rcases List.mem_cons.1 hm with h | h
        · exact absurd (h ▸ hb) (by simp [hpc])
        · exact h
      simp [List.takeWhile_cons, hb, ih hbc]
    · simp [List.takeWhile_cons, hb]

/-- If every element satisfies the predicate, `takeWhile` is the identity. -/
theorem takeWhile_eq_self_of_all {α : Type} (p : α → Bool) (m : List α)
    (h : ∀ a ∈ m, p a = true) : m.takeWhile p = m := by
  induction m with
  | nil => rfl
  | cons b bs ih =>
    have hb : p b = true := h b (List.mem_cons_self b bs)
    simp [List.takeWhile_cons, hb, ih fun a ha => h a (List.mem_cons_of_mem b ha)]

/-- The last segment of the split is exactly the suffix of the input after the
last occurrence of the separator (the whole input when it does not occur). -/
theorem jsLast_eq_revTakeWhile (c : Char) (l : List Char) :
    jsLast c l = ((l.reverse.takeWhile (fun a => a != c)).reverse) := by
  induction l with
  | nil => simp [jsLast, jsSplitChar]
  | cons x xs ih =>
    by_cases hx : x = c
    · subst hx
      have hL : jsLast x (x :: xs) = jsLast x xs := by
        unfold jsLast
        rw [jsSplitChar, if_pos rfl, List.getLastD_cons]
      have hR : ((x :: xs).reverse.takeWhile (fun a => a != x)) =
          (xs.reverse.takeWhile (fun a => a != x)) := by
        rw [List.reverse_cons]
        exact takeWhile_append_single_neg _ x (by simp) xs.reverse
      rw [hL, hR, ih]
    · by_cases hmem : c ∈ xs
      · have hL : jsLast c (x :: xs) = jsLast c xs := by
          unfold jsLast
          cases hs : jsSplitChar c xs with
          | nil => exact absurd hs (jsSplitChar_ne_nil c xs)
          | cons y ys =>
            cases hys : ys with
            | nil =>
              rw [hys] at hs
              exact absurd hmem (jsSplitChar_singleton c xs y hs)
            | cons z zs =>
              rw [jsSplitChar, if_neg hx, hs, hys]
              simp [List.getLastD_cons]
        have hR : ((x :: xs).reverse.takeWhile (fun a => a != c)) =
            (xs.reverse.takeWhile (fun a => a != c)) := by
          rw [List.reverse_cons]
          exact takeWhile_append_of_mem_neg _ c (by simp) xs.reverse [x]
            (List.mem_reverse.2 hmem)
        rw [hL, hR, ih]
      · have hall : ∀ a ∈ (x :: xs).reverse, (a != c) = true := by
          intro a ha
          have : a ∈ x :: xs := List.mem_reverse.1 ha
          rcases List.mem_cons.1 this with h | h
          · simp [h, hx]
          · simp
            intro e
            exact hmem (e ▸ h)
        have hR : ((x :: xs).reverse.takeWhile (fun a => a != c)).reverse
            = x :: xs := by
          rw [takeWhile_eq_self_of_all _ _ hall, List.reverse_reverse]
        have hnot : c ∉ x :: xs := by
          simp [List.mem_cons]
          exact ⟨fun e => hx e.symm, hmem⟩
        rw [hR]
        unfold jsLast
        rw [jsSplitChar_not_mem c (x :: xs) hnot]
        rfl

/-- The source's `split('.').pop()` agrees with the specification's
"substring after the last '.'". -/
theorem jsSplitPop_eq_spec (s : String) :
    jsSplitPop '.' s = specSuffixAfterLastDot s := by
  unfold jsSplitPop specSuffixAfterLastDot
  rw [jsLast_eq_revTakeWhile]

/-- A string built from an explicit character list is empty exactly when the
list is. -/
theorem string_mk_eq_empty_iff (l : List Char) : String.mk l = "" ↔ l = [] := by
  constructor
  · intro h
    exact congrArg String.data h
  · intro h
    subst h
    rfl

/-- A string is empty exactly when its character list is. -/
theorem string_eq_empty_iff (s : String) : s = "" ↔ s.toList = [] := by
  cases s with
  | mk d => exact string_mk_eq_empty_iff d

/-- The last segment of the split is empty exactly when the input is empty or
ends with the separator. -/
theorem jsLast_eq_nil_iff (c : Char) (l : List Char) :
    jsLast c l = [] ↔ (l = [] ∨ l.getLast? = some c) := by
  rw [jsLast_eq_revTakeWhile, List.reverse_eq_nil_iff]
  cases hrev : l.reverse with
  | nil =>
    have hl : l = [] := by simpa using congrArg List.reverse hrev
    simp [hl]
  | cons a as =>
    have hl : l ≠ [] := by
      intro e
      rw [e] at hrev
      simp at hrev
    have hglast : l.getLast? = some a := by
      rw [← List.head?_reverse, hrev]
      rfl
    rw [List.takeWhile_cons]
    by_cases ha : a = c
    · subst ha
      simp [hglast]
    · simp [ha, hl, hglast]

/-- `url.split('.').pop()` is the empty string exactly when the URL is empty
or ends with `'.'`. -/
theorem jsSplitPop_eq_empty_iff (c : Char) (s : String) :
    jsSplitPop c s = "" ↔ (s = "" ∨ s.toList.getLast? = some c) := by
  unfold jsSplitPop
  rw [string_mk_eq_empty_iff, jsLast_eq_nil_iff, string_eq_empty_iff]

/-- When the popped segment is empty, the resolver falls back to `jpg`. -/
theorem getDirectImageUrl_of_pop_empty (r : GyazoResponse)
    (h : jsSplitPop '.' r.url = "") :
    getDirectImageUrl r = "https://i.gyazo.com/" ++ r.image_id ++ ".jpg" := by
  have hstep : getDirectImageUrl r = "https://i.gyazo.com/" ++ r.image_id ++ "." ++ "jpg" := by
    simp [getDirectImageUrl, h]
  rw [hstep, String.append_assoc ("https://i.gyazo.com/" ++ r.image_id) "." "jpg"]
  rfl

/-- When the popped segment is non-empty, it becomes the extension. -/
theorem getDirectImageUrl_of_pop_ne (r : GyazoResponse)
    (h : jsSplitPop '.' r.url ≠ "") :
    getDirectImageUrl r
      = "https://i.gyazo.com/" ++ r.image_id ++ "." ++ jsSplitPop '.' r.url := by
  simp only [getDirectImageUrl, if_neg h]

/-- Appending a single element and overwriting it in place. -/
theorem list_set_append_length {α : Type} (l : List α) (x y : α) :
    (l ++ [x]).set l.length y = l ++ [y] := by
  induction l with
  | nil => rfl
  | cons a as ih =>
    simp only [List.cons_append, List.length_cons, List.set_cons_succ, ih]

/-- The number of replies one attachment's run posts, by outcome. -/
theorem processAttachment_msgs_len (e : AttEnv) (a : Attachment) (st : PState) :
    (processAttachment e a st).msgs.length
      = st.msgs.length + (if e.transferOk && e.uploadResult.isSome then 1 else 2) := by
  by_cases ht : e.transferOk
  · cases hu : e.uploadResult with
    | some r => simp [processAttachment, ht, hu]
    | none => simp [processAttachment, ht, hu]
  · simp [processAttachment, ht]

/-- The number of replies one loop iteration posts, by classification and
outcome. -/
theorem handleOne_msgs_len (e : AttEnv) (a : Attachment) (st : PState) :
    (handleOne e a st).msgs.length
      = st.msgs.length
        + (if isImage a then (if e.transferOk && e.uploadResult.isSome then 1 else 2) else 0) := by
  unfold handleOne
  by_cases hi : isImage a
  · simp [hi, processAttachment_msgs_len]
  · simp [hi]

/-- C1 counterexample: for the claim's own example input
`{image_id:"abc123", url:"https://x/y"}` the URL contains no `'.'`, yet the
resolver does not return `"https://i.gyazo.com/abc123.jpg"`: `split('.')` on a
dot-free string yields the whole string, which is non-empty, so the `|| 'jpg'`
fallback is not taken and the whole URL becomes the "extension". -/
theorem C1_counterexample :
    ('.' ∉ ("https://x/y" : String).toList)
    ∧ getDirectImageUrl ⟨"abc123", "https://x/y"⟩ = "https://i.gyazo.com/abc123.https://x/y"
    ∧ getDirectImageUrl ⟨"abc123", "https://x/y"⟩ ≠ "https://i.gyazo.com/abc123.jpg" := by
  refine ⟨by decide, by decide, by decide⟩

/-- C1 (amended): for every result whose reference URL contains no `'.'`, the
resolver returns the host prefix, the identifier and the `jpg` default only
when the URL is empty; when the URL is non-empty it returns the host prefix,
the identifier, a dot, and the entire URL. -/
theorem C1_claim (r : GyazoResponse) (h : '.' ∉ r.url.toList) :
    (r.url = "" → getDirectImageUrl r = "https://i.gyazo.com/" ++ r.image_id ++ ".jpg")
    ∧ (r.url ≠ "" →
      getDirectImageUrl r = "https://i.gyazo.com/" ++ r.image_id ++ "." ++ r.url) := by
  have hpop : jsSplitPop '.' r.url = r.url := by
    unfold jsSplitPop jsLast
    rw [jsSplitChar_not_mem '.' r.url.toList h]
    rfl
  constructor
  · intro he
    exact getDirectImageUrl_of_pop_empty r (by rw [hpop, he])
  · intro hne
    rw [getDirectImageUrl_of_pop_ne r (by rw [hpop]; exact hne), hpop]

/-- C1 witness: the amended claim evaluated at the claim's example input. -/
theorem C1_witness :
    getDirectImageUrl ⟨"abc123", "https://x/y"⟩
      = "https://i.gyazo.com/" ++ "abc123" ++ "." ++ "https://x/y" :=
  (C1_claim ⟨"abc123", "https://x/y"⟩ (by decide)).2 (by decide)

/-- C2: with the download succeeded (staging file created) and the upload
failed, the run ends on the `catch` path, which posts the failure reply but
performs no cleanup — the staging file still exists after the run ends,
contradicting the claimed all-paths cleanup. -/
theorem C2_claim :
    (processAttachment ⟨true, none, 0⟩ ⟨"cat.png", "https://cdn/a"⟩ ⟨[], ⟨[], []⟩⟩).fs.files
      = ["temp/temp_0_cat.png"]
    ∧ (processAttachment ⟨true, none, 0⟩ ⟨"cat.png", "https://cdn/a"⟩ ⟨[], ⟨[], []⟩⟩).msgs
      = [pendingText, failText] := by
  refine ⟨by decide, by decide⟩

/-- C3: an event from a bot author, or from a channel other than a configured
non-empty channel filter, or with no attachments, is ignored: the handler
leaves the state untouched — zero replies, no file operations. -/
theorem C3_claim (cfg : Config) (env : Nat → AttEnv) (m : Message) (st : PState)
    (h : m.authorBot = true
      ∨ (cfg.channelId ≠ "" ∧ m.channelId ≠ cfg.channelId)
      ∨ m.attachments = []) :
    handleMessage cfg env m st = st := by
  unfold handleMessage
  rcases h with h | ⟨h1, h2⟩ | h
  · simp [h]
  · by_cases hb : m.authorBot
    · simp [hb]
    · have hch : (cfg.channelId != "" && m.channelId != cfg.channelId) = true := by
        simp [h1, h2]
      simp [hb, hch]
  · by_cases hb : m.authorBot
    · simp [hb]
    · simp [hb, h]

/-- C3 witness: a bot-authored event with an image attachment is ignored. -/
theorem C3_witness :
    handleMessage ⟨""⟩ (fun _ => ⟨true, none, 0⟩) ⟨true, "c", [⟨"cat.png", "u"⟩]⟩ ⟨[], ⟨[], []⟩⟩
      = ⟨[], ⟨[], []⟩⟩ :=
  C3_claim ⟨""⟩ (fun _ => ⟨true, none, 0⟩) ⟨true, "c", [⟨"cat.png", "u"⟩]⟩ ⟨[], ⟨[], []⟩⟩
    (Or.inl rfl)

/-- C4: one loop iteration leaves the state untouched exactly when the
attachment's lowercased name does not end in one of the allow-listed
suffixes; when it does, processing is attempted and at least the pending
reply is posted. -/
theorem C4_claim (e : AttEnv) (a : Attachment) (st : PState) :
    (handleOne e a st = st ↔ isImage a = false)
    ∧ (isImage a = true →
      (handleOne e a st).msgs.length
        = st.msgs.length + (if e.transferOk && e.uploadResult.isSome then 1 else 2)) := by
  constructor
  · constructor
    · intro h
      by_contra hni
      have hi : isImage a = true := by simpa using hni
      have hlen := handleOne_msgs_len e a st
      rw [h, hi] at hlen
      simp only [if_true] at hlen
      split at hlen <;> omega
    · intro h
      simp [handleOne, h]
  · intro h
    rw [handleOne_msgs_len, h]
    simp

/-- C4 witness: a qualifying attachment (upload failing) posts two replies; a
`.txt` attachment would fall under the iff's right-hand side instead. -/
theorem C4_witness :
    (handleOne ⟨true, none, 0⟩ ⟨"cat.png", "u"⟩ ⟨[], ⟨[], []⟩⟩).msgs.length = 2 :=
  ((C4_claim ⟨true, none, 0⟩ ⟨"cat.png", "u"⟩ ⟨[], ⟨[], []⟩⟩).2 (by decide)).trans (by decide)

/-- C5 counterexample: at `url = "https://x/y."` the substring after the last
`'.'` is empty, the code falls back to `jpg`, and the result differs from the
claimed "prefix + identifier + substring after the last dot". -/
theorem C5_counterexample :
    specSuffixAfterLastDot "https://x/y." = ""
    ∧ getDirectImageUrl ⟨"abc123", "https://x/y."⟩ = "https://i.gyazo.com/abc123.jpg"
    ∧ getDirectImageUrl ⟨"abc123", "https://x/y."⟩
        ≠ "https://i.gyazo.com/" ++ "abc123" ++ "." ++ specSuffixAfterLastDot "https://x/y." := by
  refine ⟨by decide, by decide, by decide⟩

/-- C5 (amended): the resolver is total and returns the host prefix plus the
identifier plus the substring of the reference URL after its last `'.'`
whenever that substring is non-empty, and the `jpg` default otherwise. -/
theorem C5_claim (r : GyazoResponse) :
    (specSuffixAfterLastDot r.url ≠ "" →
      getDirectImageUrl r
        = "https://i.gyazo.com/" ++ r.image_id ++ "." ++ specSuffixAfterLastDot r.url)
    ∧ (specSuffixAfterLastDot r.url = "" →
      getDirectImageUrl r = "https://i.gyazo.com/" ++ r.image_id ++ ".jpg") := by
  constructor
  · intro h
    rw [← jsSplitPop_eq_spec] at h ⊢
    exact getDirectImageUrl_of_pop_ne r h
  · intro h
    rw [← jsSplitPop_eq_spec] at h
    exact getDirectImageUrl_of_pop_empty r h

/-- C5 witness: the specification's example
`resolve({image_id:"abc123", url:"https://x/y.png"})`. -/
theorem C5_witness :
    getDirectImageUrl ⟨"abc123", "https://x/y.png"⟩
      = "https://i.gyazo.com/" ++ "abc123" ++ "." ++ specSuffixAfterLastDot "https://x/y.png" :=
  (C5_claim ⟨"abc123", "https://x/y.png"⟩).1 (by decide)

/-- C6: a run whose download and upload both succeed edits the pending reply
in place to the code-block-wrapped direct URL: the final message list is the
old one plus exactly that one message — no additional reply. -/
theorem C6_claim (e : AttEnv) (a : Attachment) (st : PState) (resp : GyazoResponse)
    (ht : e.transferOk = true) (hu : e.uploadResult = some resp) :
    (processAttachment e a st).msgs
      = st.msgs ++ ["```" ++ getDirectImageUrl resp ++ "```"] := by
  simp only [processAttachment, ht, hu, if_true]
  exact list_set_append_length st.msgs pendingText _

/-- C6 witness: the specification's end-to-end scenario A, with the hosting
API returning `{image_id:"xyz", url:"https://gyazo.com/xyz.png"}`. -/
theorem C6_witness :
    (processAttachment ⟨true, some ⟨"xyz", "https://gyazo.com/xyz.png"⟩, 0⟩
        ⟨"cat.png", "u"⟩ ⟨[], ⟨[], []⟩⟩).msgs
      = ["```https://i.gyazo.com/xyz.png```"] :=
  (C6_claim ⟨true, some ⟨"xyz", "https://gyazo.com/xyz.png"⟩, 0⟩ ⟨"cat.png", "u"⟩
    ⟨[], ⟨[], []⟩⟩ ⟨"xyz", "https://gyazo.com/xyz.png"⟩ rfl rfl).trans (by decide)

/-- C7: a run failing at the download or at the upload posts the fixed failure
notice as a new message while the pending reply keeps its original content. -/
theorem C7_claim (e : AttEnv) (a : Attachment) (st : PState)
    (h : e.transferOk = false ∨ e.uploadResult = none) :
    (processAttachment e a st).msgs = st.msgs ++ [pendingText, failText] := by
  rcases h with h | h
  · simp [processAttachment, h]
  · by_cases ht : e.transferOk
    · simp [processAttachment, ht, h]
    · simp [processAttachment, ht]

/-- C7 witness: an upload failure leaves the pending reply unedited and adds
the failure notice as a separate message. -/
theorem C7_witness :
    (processAttachment ⟨true, none, 0⟩ ⟨"dog.png", "u"⟩ ⟨["m"], ⟨[], []⟩⟩).msgs
      = ["m", pendingText, failText] :=
  (C7_claim ⟨true, none, 0⟩ ⟨"dog.png", "u"⟩ ⟨["m"], ⟨[], []⟩⟩ (Or.inr rfl)).trans (by decide)

/-- C8: the attachment loop is a sequential fold in which every attachment
contributes its own replies — one for a skipped one, one or two for a
processed one — independently of the outcomes of the attachments before it,
so a failure on one attachment never prevents the processing of the rest. -/
theorem C8_claim (env : Nat → AttEnv) (atts : List Attachment) (i : Nat) (st : PState) :
    (processAttachments env atts i st).msgs.length
      = st.msgs.length + repliesFor env atts i := by
  induction atts generalizing i st with
  | nil => simp [processAttachments, repliesFor]
  | cons a rest ih =>
    rw [processAttachments, repliesFor, ih, handleOne_msgs_len]
    omega

/-- C9: the cleanup helper never propagates an error: when its body succeeds
the result is the body's filesystem, when the body raises the filesystem is
returned unchanged; on an already-deleted path it is a silent no-op twice
over; and a refused deletion is swallowed. -/
theorem C9_claim (fs : FS) (p : String) :
    (∀ fs', cleanupFileBody fs p = Except.ok fs' → cleanupFile fs p = fs')
    ∧ (cleanupFileBody fs p = Except.error () → cleanupFile fs p = fs)
    ∧ (existsSync fs p = false →
      cleanupFile fs p = fs ∧ cleanupFile (cleanupFile fs p) p = fs)
    ∧ (unlinkSync fs p = Except.error () → cleanupFile fs p = fs) := by
  refine ⟨?_, ?_, ?_, ?_⟩
  · intro fs' h
    simp [cleanupFile, h]
  · intro h
    simp [cleanupFile, h]
  · intro h
    have hb : cleanupFileBody fs p = Except.ok fs := by
      simp [cleanupFileBody, h]
    constructor
    · simp [cleanupFile, hb]
    · simp [cleanupFile, hb]
  · intro h
    by_cases he : existsSync fs p
    · have hb : cleanupFileBody fs p = Except.error () := by
        simp [cleanupFileBody, he, h]
      simp [cleanupFile, hb]
    · have hb : cleanupFileBody fs p = Except.ok fs := by
        simp [cleanupFileBody, he]
      simp [cleanupFile, hb]

/-- C9 witness: a path whose deletion the filesystem refuses is swallowed and
the run continues with the filesystem unchanged. -/
theorem C9_witness :
    cleanupFile ⟨["a"], ["a"]⟩ "a" = ⟨["a"], ["a"]⟩ :=
  (C9_claim ⟨["a"], ["a"]⟩ "a").2.2.2 (by rfl)

/-- C10: the `jpg` default fires exactly when `url.split('.').pop()` is the
empty string, which happens exactly when the URL is empty or ends with `'.'`;
in those cases the resolver returns prefix + identifier + ".jpg". -/
theorem C10_claim (r : GyazoResponse) :
    ((r.url = "" ∨ r.url.toList.getLast? = some '.') ↔ jsSplitPop '.' r.url = "")
    ∧ ((r.url = "" ∨ r.url.toList.getLast? = some '.') →
      getDirectImageUrl r = "https://i.gyazo.com/" ++ r.image_id ++ ".jpg") := by
  have hiff := jsSplitPop_eq_empty_iff '.' r.url
  exact ⟨hiff.symm, fun h => getDirectImageUrl_of_pop_empty r (hiff.2 h)⟩

/-- C10 witness: a URL ending in `'.'` takes the `jpg` default. -/
theorem C10_witness :
    getDirectImageUrl ⟨"abc123", "ab."⟩ = "https://i.gyazo.com/" ++ "abc123" ++ ".jpg" :=
  (C10_claim ⟨"abc123", "ab."⟩).2 (Or.inr (by decide))
